import Mathlib

/-!
Verification development for the Boom and Crust Pizzeria application
(`src/index.tsx`).  The economic derivation engine, the chart engine
(scaling, smoothing, zero-crossing split, hover hit regions) and the
scenario store are embedded shallowly: JavaScript numbers are modelled as
rationals, the JavaScript values `Infinity` (used as the undefined-rate
sentinel) and `NaN` (reachable only through out-of-range list indexing)
are modelled by `Option` with `none` for the non-finite value.
-/

/-! ## Data & configuration (src/index.tsx lines 115-142) -/

/-- `LABOR_COST_PER_HOUR = 20`. -/
def LABOR_COST_PER_HOUR : ℚ := 20

/-- `MAX_LABOUR = 10`. -/
def MAX_LABOUR : ℕ := 10

/-- One entry of `PRODUCTION_SCHEDULES`: a capital configuration with a
fixed cost and a discrete production table indexed by labour count. -/
structure Schedule where
  name : String
  description : String
  fixedCost : ℚ
  icon : String
  production : List ℚ
deriving DecidableEq

/-- The Standard Oven configuration. -/
def standardOven : Schedule :=
  { name := "Standard Oven"
    description := "A reliable, small pizza oven. Good for starting out."
    fixedCost := 100
    icon := "F"
    production := [0, 10, 25, 45, 60, 70, 75, 77, 78, 78, 75] }

/-- The Conveyor Belt Oven configuration. -/
def conveyorBeltOven : Schedule :=
  { name := "Conveyor Belt Oven"
    description := "A larger, more efficient oven that streamlines the cooking process."
    fixedCost := 200
    icon := "C"
    production := [0, 20, 50, 90, 140, 180, 210, 230, 240, 245, 248] }

/-- The Industrial Kitchen configuration. -/
def industrialKitchen : Schedule :=
  { name := "Industrial Kitchen"
    description := "A fully-equipped industrial kitchen for maximum output."
    fixedCost := 400
    icon := "I"
    production := [0, 30, 70, 120, 180, 250, 330, 420, 500, 560, 600] }

/-- `PRODUCTION_SCHEDULES` (src/index.tsx lines 119-142). -/
def PRODUCTION_SCHEDULES : List Schedule :=
  [standardOven, conveyorBeltOven, industrialKitchen]

/-! ## Economic derivation engine (src/index.tsx lines 587-623) -/

/-- One record of `economicData` (the object literal built at
src/index.tsx lines 600-611).  `marginalProduct` is an `Option` because
the raw JavaScript indexing in its computation can produce `NaN` when out
of the table's range; `marginalCost` and `averageTotalCost` use `none`
for the `Infinity` sentinel. -/
structure EconomicRecord where
  labour : ℕ
  totalProduction : ℚ
  marginalProduct : Option ℚ
  totalRevenue : ℚ
  variableCost : ℚ
  fixedCost : ℚ
  totalCost : ℚ
  totalProfit : ℚ
  marginalCost : Option ℚ
  averageTotalCost : Option ℚ
deriving DecidableEq

/-- `productionSchedule.production[numLabour] || 0` (src/index.tsx line
590): table lookup clamped to `0` when out of range (or when the entry is
`0` itself, which `||` also sends to `0` — same value). -/
def prodAt (s : Schedule) (i : ℕ) : ℚ :=
  (s.production.get? i).getD 0

/-- src/index.tsx line 591:
`numLabour > 0 ? production[numLabour] - production[numLabour-1] : production[numLabour]`.
The raw lookups are not clamped by `|| 0`; an out-of-range index would
give `undefined` and the subtraction `NaN`, modelled by `none`. -/
def marginalProductAt (s : Schedule) (i : ℕ) : Option ℚ :=
  if 0 < i then
    match s.production.get? i, s.production.get? (i - 1) with
    | some a, some b => some (a - b)
    | _, _ => none
  else s.production.get? i

/-- `numLabour * LABOR_COST_PER_HOUR * 8` (src/index.tsx line 593), taken
over ℤ because line 597 also evaluates it at `numLabour - 1 = -1`. -/
def variableCostAt (i : ℤ) : ℚ :=
  (i : ℚ) * LABOR_COST_PER_HOUR * 8

/-- The record built for labour level `i` inside the `economicData`
`useMemo` (src/index.tsx lines 588-612). -/
def economicRecord (s : Schedule) (price : ℚ) (i : ℕ) : EconomicRecord where
  labour := i
  totalProduction := prodAt s i
  marginalProduct := marginalProductAt s i
  totalRevenue := prodAt s i * price
  variableCost := variableCostAt i
  fixedCost := s.fixedCost
  totalCost := s.fixedCost + variableCostAt i
  totalProfit := prodAt s i * price - (s.fixedCost + variableCostAt i)
  marginalCost :=
    match marginalProductAt s i with
    | some m =>
        if 0 < m then some ((variableCostAt i - variableCostAt ((i : ℤ) - 1)) / m) else none
    | none => none
  averageTotalCost :=
    if 0 < prodAt s i then some ((s.fixedCost + variableCostAt i) / prodAt s i) else none

/-- `economicData` (src/index.tsx lines 587-614):
`Array.from({length: MAX_LABOUR + 1}, (_, i) => ...)`. -/
def economicData (s : Schedule) (price : ℚ) : List EconomicRecord :=
  (List.range (MAX_LABOUR + 1)).map (economicRecord s price)

/-- `maxProfitData` (src/index.tsx line 617):
`economicData.reduce((max, current) => current.totalProfit > max.totalProfit ? current : max, economicData[0])`.
`economicData` always has `MAX_LABOUR + 1` elements, so the `headD`
default is never used. -/
def maxProfitData (s : Schedule) (price : ℚ) : EconomicRecord :=
  (economicData s price).foldl
    (fun mx current => if mx.totalProfit < current.totalProfit then current else mx)
    ((economicData s price).headD (economicRecord s price 0))

/-- The strict order on JavaScript numbers restricted to finite values
and `Infinity` (`none`): `Infinity < Infinity` is false, any finite value
is `< Infinity`. -/
def optLt (a b : Option ℚ) : Prop :=
  match a, b with
  | some x, some y => x < y
  | some _, none => True
  | none, _ => False

instance (a b : Option ℚ) : Decidable (optLt a b) :=
  match a, b with
  | some x, some y => inferInstanceAs (Decidable (x < y))
  | some _, none => inferInstanceAs (Decidable True)
  | none, some _ => inferInstanceAs (Decidable False)
  | none, none => inferInstanceAs (Decidable False)

/-- `economicData.filter(d => isFinite(d.averageTotalCost) && d.labour > 0)`
(src/index.tsx line 620). -/
def validAtcData (s : Schedule) (price : ℚ) : List EconomicRecord :=
  (economicData s price).filter fun d => d.averageTotalCost.isSome && decide (0 < d.labour)

/-- `minAtcData` (src/index.tsx lines 619-623): the least-average-total-cost
record of the filtered data, falling back to `economicData[0]` when the
filtered data is empty. -/
def minAtcData (s : Schedule) (price : ℚ) : EconomicRecord :=
  match validAtcData s price with
  | [] => (economicData s price).headD (economicRecord s price 0)
  | v :: vs =>
      (v :: vs).foldl
        (fun mn current =>
          if optLt current.averageTotalCost mn.averageTotalCost then current else mn) v

/-! ## Chart engine (src/index.tsx lines 160-374) -/

/-- A 2-D chart point (`{x, y}`). -/
structure Point where
  x : ℚ
  y : ℚ
deriving DecidableEq

instance : Inhabited Point := ⟨⟨0, 0⟩⟩

/-- `xScale` (src/index.tsx lines 177-180), parameterised by the captured
`minX`, `maxX` and plot `width`. -/
def xScale (minX maxX width : ℚ) (x : ℚ) : ℚ :=
  if maxX = minX then width / 2
  else (x - minX) / (maxX - minX) * width

/-- `yScale` (src/index.tsx lines 182-185), parameterised by the captured
`minY`, `maxY` and plot `height`; inverted so larger values render higher. -/
def yScale (minY maxY height : ℚ) (y : ℚ) : ℚ :=
  if maxY = minY then height / 2
  else height - (y - minY) / (maxY - minY) * height

/-- The spec's unified scale interface `scaleValue(v, lo, hi, extent, invert)`
(spec section 6): `xScale` for the horizontal axis, `yScale` for the
inverted vertical axis. -/
def scaleValue (v lo hi extent : ℚ) (invert : Bool) : ℚ :=
  if invert then yScale lo hi extent v else xScale lo hi extent v

/-- `const tension = 0.5` (src/index.tsx line 203). -/
def tension : ℚ := 1 / 2

/-- `points.map(p => ({x: xScale(p.x), y: yScale(p.y)}))`
(src/index.tsx line 189). -/
def scalePoint (xS yS : ℚ → ℚ) (p : Point) : Point :=
  ⟨xS p.x, yS p.y⟩

/-- A command of the SVG path string built by `createSmoothPath`. -/
inductive PathCmd where
  | M (x y : ℚ)
  | L (x y : ℚ)
  | C (c1x c1y c2x c2y x y : ℚ)
deriving DecidableEq

/-- The loop of `createSmoothPath` (src/index.tsx lines 197-213): one cubic
Bezier command per consecutive pair of scaled points, with Catmull-Rom-style
control points. -/
def smoothSegments (sp : List Point) : List PathCmd :=
  (List.range (sp.length - 1)).map fun i =>
    let p0 := if 0 < i then sp.getD (i - 1) default else sp.getD i default
    let p1 := sp.getD i default
    let p2 := sp.getD (i + 1) default
    let p3 := if i < sp.length - 2 then sp.getD (i + 2) default else p2
    let t1x := (p2.x - p0.x) * tension
    let t1y := (p2.y - p0.y) * tension
    let t2x := (p3.x - p1.x) * tension
    let t2y := (p3.y - p1.y) * tension
    PathCmd.C (p1.x + t1x) (p1.y + t1y) (p2.x - t2x) (p2.y - t2y) p2.x p2.y

/-- `createSmoothPath` (src/index.tsx lines 187-215).  The path string is
modelled as the list of its commands; `''` is the empty list. -/
def createSmoothPath (xS yS : ℚ → ℚ) (points : List Point) : List PathCmd :=
  if points.length < 2 then []
  else if (points.map (scalePoint xS yS)).length = 2 then
    [PathCmd.M ((points.map (scalePoint xS yS)).getD 0 default).x
        ((points.map (scalePoint xS yS)).getD 0 default).y,
     PathCmd.L ((points.map (scalePoint xS yS)).getD 1 default).x
        ((points.map (scalePoint xS yS)).getD 1 default).y]
  else
    PathCmd.M ((points.map (scalePoint xS yS)).getD 0 default).x
        ((points.map (scalePoint xS yS)).getD 0 default).y ::
      smoothSegments (points.map (scalePoint xS yS))

/-- The first point of a path (the coordinate of its leading `M` command). -/
def pathStart : List PathCmd → Option Point
  | PathCmd.M x y :: _ => some ⟨x, y⟩
  | _ => none

/-- The endpoint a path command leaves the pen at. -/
def cmdEnd : PathCmd → Point
  | PathCmd.M x y => ⟨x, y⟩
  | PathCmd.L x y => ⟨x, y⟩
  | PathCmd.C _ _ _ _ x y => ⟨x, y⟩

/-- The last point of a path. -/
def pathEnd (cmds : List PathCmd) : Option Point :=
  cmds.getLast?.map cmdEnd

/-- The sign-change test of the zero-crossing scan (src/index.tsx line 292):
`(d[i].y >= 0 && d[i+1].y < 0) || (d[i].y <= 0 && d[i+1].y > 0)`. -/
def crossCondB (p1 p2 : Point) : Bool :=
  (decide (0 ≤ p1.y) && decide (p2.y < 0)) || (decide (p1.y ≤ 0) && decide (0 < p2.y))

/-- The scan of src/index.tsx lines 291-308: the first consecutive pair
whose y-values change sign (the loop `break`s at the first hit). -/
def findCrossing : List Point → Option (Point × Point)
  | [] => none
  | [_] => none
  | p1 :: p2 :: rest =>
      if crossCondB p1 p2 then some (p1, p2) else findCrossing (p2 :: rest)

/-- The interpolated crossing point (src/index.tsx lines 296-297):
`x = p1.x - p1.y * (p2.x - p1.x) / (p2.y - p1.y)`, at `y = 0`. -/
def crossingPoint (p1 p2 : Point) : Point :=
  ⟨p1.x - p1.y * (p2.x - p1.x) / (p2.y - p1.y), 0⟩

/-- The zero-crossing split (src/index.tsx lines 286-308): filter the data
into the non-negative and non-positive sublists, then insert the
interpolated crossing point on both sides of the seam of the first sign
change (appended to the sublist the curve exits, prepended to the one it
enters).  The `p2.y - p1.y !== 0` guard of line 295 is kept as in the
source even though it cannot fail at a sign change. -/
def splitAtZeroCrossing (data : List Point) : List Point × List Point :=
  match findCrossing data with
  | none =>
      (data.filter fun d => decide (0 ≤ d.y), data.filter fun d => decide (d.y ≤ 0))
  | some (p1, p2) =>
      if p2.y - p1.y ≠ 0 then
        if 0 ≤ p1.y then
          ((data.filter fun d => decide (0 ≤ d.y)) ++ [crossingPoint p1 p2],
           crossingPoint p1 p2 :: data.filter fun d => decide (d.y ≤ 0))
        else
          (crossingPoint p1 p2 :: data.filter fun d => decide (0 ≤ d.y),
           (data.filter fun d => decide (d.y ≤ 0)) ++ [crossingPoint p1 p2])
      else
        (data.filter fun d => decide (0 ≤ d.y), data.filter fun d => decide (d.y ≤ 0))

/-- `columnWidth` (src/index.tsx line 240):
`uniqueXValues.length > 1 ? xScale(u[1]) - xScale(u[0]) : width`. -/
def columnWidth (u : List ℚ) (minX maxX width : ℚ) : ℚ :=
  if 1 < u.length then
    xScale minX maxX width (u.getD 1 0) - xScale minX maxX width (u.getD 0 0)
  else width

/-- An axis-aligned rectangle (`x`, `y`, `width`, `height`). -/
structure Rect where
  x : ℚ
  y : ℚ
  w : ℚ
  h : ℚ
deriving DecidableEq

/-- The invisible hover target for the column at x-value `x`
(src/index.tsx lines 321-331). -/
def hoverRect (u : List ℚ) (minX maxX width height : ℚ) (x : ℚ) : Rect :=
  { x := xScale minX maxX width x - columnWidth u minX maxX width / 2
    y := 0
    w := columnWidth u minX maxX width
    h := height }

/-! ## Scenario store (src/index.tsx lines 695-721) -/

/-- A saved scenario (the object literal of src/index.tsx lines 697-705). -/
structure Scenario where
  name : String
  icon : String
  maxProfit : ℚ
  optimalLabour : ℕ
  priceAtSave : ℚ
  mcAtMaxProfit : Option ℚ
  atcAtMaxProfit : Option ℚ
deriving DecidableEq

/-- JavaScript's `Array.prototype.findIndex`, with `none` for `-1`. -/
def findIndex {α : Type} (p : α → Bool) : List α → Option ℕ
  | [] => none
  | x :: t => if p x then some 0 else (findIndex p t).map Nat.succ

/-- The scenario the save button stores (src/index.tsx lines 697-705). -/
def newScenario (s : Schedule) (price : ℚ) : Scenario :=
  { name := s.name
    icon := s.icon
    maxProfit := (maxProfitData s price).totalProfit
    optimalLabour := (maxProfitData s price).labour
    priceAtSave := price
    mcAtMaxProfit := (maxProfitData s price).marginalCost
    atcAtMaxProfit := (maxProfitData s price).averageTotalCost }

/-- The state updater of `handleSaveScenario` (src/index.tsx lines 707-715):
replace the entry at the first index whose name matches, else append. -/
def handleSaveScenario (prev : List Scenario) (n : Scenario) : List Scenario :=
  match findIndex (fun sc => sc.name == n.name) prev with
  | some idx => prev.set idx n
  | none => prev ++ [n]

/-- `handleClearScenarios` (src/index.tsx lines 718-721). -/
def handleClearScenarios : List Scenario := []

example : prodAt standardOven 3 = 45 := by decide
example : (economicRecord standardOven 15 3).totalProfit = 95 := by
  norm_num [economicRecord, prodAt, standardOven, variableCostAt, LABOR_COST_PER_HOUR]
example : (economicRecord standardOven 15 3).marginalCost = some 8 := by
  norm_num [economicRecord, prodAt, marginalProductAt, standardOven, variableCostAt,
    LABOR_COST_PER_HOUR]
example : (maxProfitData standardOven 15).labour = 4 := by
  norm_num [maxProfitData, economicData, economicRecord, prodAt, standardOven,
    variableCostAt, LABOR_COST_PER_HOUR, MAX_LABOUR, List.range_succ]
example : (minAtcData standardOven 15).labour = 4 := by
  norm_num [minAtcData, validAtcData, optLt, economicData, economicRecord, prodAt,
    marginalProductAt, standardOven, variableCostAt, LABOR_COST_PER_HOUR, MAX_LABOUR,
    List.range_succ, List.filter]
example : (economicRecord standardOven 15 0).marginalCost = none := by
  norm_num [economicRecord, prodAt, marginalProductAt, standardOven, variableCostAt,
    LABOR_COST_PER_HOUR]

example : splitAtZeroCrossing [⟨0, 5⟩, ⟨1, -3⟩] =
    ([⟨0, 5⟩, ⟨5/8, 0⟩], [⟨5/8, 0⟩, ⟨1, -3⟩]) := by
  norm_num [splitAtZeroCrossing, findCrossing, crossCondB, crossingPoint, List.filter]

example : scaleValue 5 3 3 100 false = 50 := by
  norm_num [scaleValue, xScale]

example : createSmoothPath id id [⟨0, 0⟩, ⟨2, 4⟩] = [PathCmd.M 0 0, PathCmd.L 2 4] := by
  norm_num [createSmoothPath, scalePoint]

example :
    handleSaveScenario [⟨"A", "i", 0, 0, 0, none, none⟩] ⟨"A", "j", 1, 1, 1, none, none⟩ =
      [⟨"A", "j", 1, 1, 1, none, none⟩] := by
  norm_num [handleSaveScenario, findIndex]

/-! ## Helper lemmas -/

/-- Specification of JavaScript's `reduce((best, current) => test ? current : best, init)`
pattern: the fold returns an element of `init :: l` that no element bests,
and every element strictly before its position is strictly bested by it
(so the fold keeps the first best element of a left-to-right scan). -/
theorem foldl_pick_spec {α : Type} (lt : α → α → Prop) (pick : α → α → α)
    (hpick : ∀ m c, (lt m c ∧ pick m c = c) ∨ (¬ lt m c ∧ pick m c = m))
    (asym : ∀ a b, lt a b → ¬ lt b a)
    (htrans1 : ∀ a b c, lt a b → ¬ lt c b → lt a c)
    (htrans2 : ∀ a b c, ¬ lt a b → lt a c → lt b c)
    (init : α) (l : List α) :
    ∃ k, (init :: l).get? k = some (l.foldl pick init)
      ∧ (∀ x ∈ init :: l, ¬ lt (l.foldl pick init) x)
      ∧ (∀ x ∈ (init :: l).take k, lt x (l.foldl pick init)) := by
  induction l generalizing init with
  | nil =>
      refine ⟨0, rfl, ?_, ?_⟩
      · intro x hx
        simp only [List.foldl_nil]
        simp only [List.mem_singleton] at hx
        subst hx
        exact fun h => asym _ _ h h
      · intro x hx
        simp at hx
  | cons c t ih =>
      rcases hpick init c with ⟨hlt, hp⟩ | ⟨hnlt, hp⟩
      · obtain ⟨k, hk, hall, hfirst⟩ := ih c
        have hfold : (c :: t).foldl pick init = t.foldl pick c := by
          simp [List.foldl_cons, hp]
        have hinit_lt : lt init (t.foldl pick c) :=
          htrans1 init c _ hlt (hall c (List.mem_cons_self _ _))
        refine ⟨k + 1, ?_, ?_, ?_⟩
        · rw [hfold]
          simpa using hk
        · intro x hx
          rw [hfold]
          rcases List.mem_cons.mp hx with rfl | hx'
          · exact asym _ _ hinit_lt
          · exact hall x hx'
        · intro x hx
          rw [hfold]
          rw [List.take_succ_cons] at hx
          rcases List.mem_cons.mp hx with rfl | hx'
          · exact hinit_lt
          · exact hfirst x hx'
      · obtain ⟨k, hk, hall, hfirst⟩ := ih init
        have hfold : (c :: t).foldl pick init = t.foldl pick init := by
          simp [List.foldl_cons, hp]
        cases k with
        | zero =>
            have hr : t.foldl pick init = init := by
              have := hk
              simp only [List.get?_cons_zero] at this
              exact (Option.some.inj this).symm
            refine ⟨0, ?_, ?_, ?_⟩
            · rw [hfold, hr]
              rfl
            · intro x hx
              rw [hfold, hr]
              rcases List.mem_cons.mp hx with rfl | hx'
              · exact fun h => asym _ _ h h
              · rcases List.mem_cons.mp hx' with rfl | hx''
                · exact hnlt
                · have := hall x (List.mem_cons_of_mem _ hx'')
                  rw [hr] at this
                  exact this
            · intro x hx
              simp at hx
        | succ j =>
            have hkt : t.get? j = some (t.foldl pick init) := by
              simpa using hk
            have hinit_lt : lt init (t.foldl pick init) := by
              apply hfirst
              rw [List.take_succ_cons]
              exact List.mem_cons_self _ _
            refine ⟨j + 2, ?_, ?_, ?_⟩
            · rw [hfold]
              simpa using hkt
            · intro x hx
              rw [hfold]
              rcases List.mem_cons.mp hx with rfl | hx'
              · exact asym _ _ hinit_lt
              · rcases List.mem_cons.mp hx' with rfl | hx''
                · intro hrc
                  exact asym _ _ hinit_lt (htrans1 _ _ _ hrc hnlt)
                · exact hall x (List.mem_cons_of_mem _ hx'')
            · intro x hx
              rw [hfold]
              rw [List.take_succ_cons] at hx
              rcases List.mem_cons.mp hx with rfl | hx'
              · exact hinit_lt
              · rw [List.take_succ_cons] at hx'
                rcases List.mem_cons.mp hx' with rfl | hx''
                · exact htrans2 init x _ hnlt hinit_lt
                · apply hfirst
                  rw [List.take_succ_cons]
                  exact List.mem_cons_of_mem _ hx''

theorem optLt_asymm (a b : Option ℚ) (h : optLt a b) : ¬ optLt b a := by
  cases a <;> cases b <;> simp [optLt] at h ⊢ <;> linarith

theorem optLt_aux1 (a b c : Option ℚ) (h1 : optLt b a) (h2 : ¬ optLt b c) : optLt c a := by
  cases a <;> cases b <;> cases c <;> simp [optLt] at h1 h2 ⊢ <;> linarith

theorem optLt_aux2 (a b c : Option ℚ) (h1 : ¬ optLt b a) (h2 : optLt c a) : optLt c b := by
  cases a <;> cases b <;> cases c <;> simp [optLt] at h1 h2 ⊢ <;> linarith

/-! ## Claim theorems -/

/-- C2: for every derived EconomicRecord sequence, `maxProfitData` is an
element of the sequence (at the index equal to its labour level) whose
`totalProfit` is greater than or equal to every record's, and every record
strictly before it in the left-to-right scan has strictly smaller
`totalProfit` — so on ties the lowest-labour record is returned. -/
theorem maxProfitData_correct (s : Schedule) (price : ℚ) :
    ∃ k, (economicData s price).get? k = some (maxProfitData s price)
      ∧ (maxProfitData s price).labour = k
      ∧ (∀ r ∈ economicData s price, r.totalProfit ≤ (maxProfitData s price).totalProfit)
      ∧ (∀ r ∈ (economicData s price).take k,
          r.totalProfit < (maxProfitData s price).totalProfit) := by
  have hdata : economicData s price =
      economicRecord s price 0 ::
        (List.range MAX_LABOUR).map (fun i => economicRecord s price (i + 1)) := by
    show (List.range (MAX_LABOUR + 1)).map (economicRecord s price) = _
    rw [List.range_succ_eq_map, List.map_cons, List.map_map]
    rfl
  set pick : EconomicRecord → EconomicRecord → EconomicRecord :=
    fun mx current => if mx.totalProfit < current.totalProfit then current else mx
    with hpick_def
  set h0 := economicRecord s price 0 with h0_def
  set tl := (List.range MAX_LABOUR).map (fun i => economicRecord s price (i + 1)) with tl_def
  have hmax : maxProfitData s price = tl.foldl pick h0 := by
    show (economicData s price).foldl pick
        ((economicData s price).headD (economicRecord s price 0)) = _
    rw [hdata]
    show (h0 :: tl).foldl pick h0 = _
    rw [List.foldl_cons]
    have : pick h0 h0 = h0 := ite_self _
    rw [this]
  obtain ⟨k, hk, hall, hfirst⟩ :=
    foldl_pick_spec (fun a b => a.totalProfit < b.totalProfit) pick
      (by
        intro m c
        by_cases h : m.totalProfit < c.totalProfit
        · exact Or.inl ⟨h, if_pos h⟩
        · exact Or.inr ⟨h, if_neg h⟩)
      (fun a b h => not_lt.mpr h.le)
      (fun a b c h1 h2 => lt_of_lt_of_le h1 (not_lt.mp h2))
      (fun a b c h1 h2 => lt_of_le_of_lt (not_lt.mp h1) h2)
      h0 tl
  rw [← hmax] at hk hall hfirst
  rw [← hdata] at hk hall hfirst
  refine ⟨k, hk, ?_, fun r hr => not_lt.mp (hall r hr), hfirst⟩
  have hk11 : k < MAX_LABOUR + 1 := by
    have := List.get?_eq_some.mp hk
    obtain ⟨hlt, -⟩ := this
    simpa [economicData] using hlt
  have : (economicData s price).get? k = some (economicRecord s price k) := by
    show ((List.range (MAX_LABOUR + 1)).map (economicRecord s price)).get? k = _
    rw [List.get?_map, List.get?_range hk11]
    rfl
  rw [this] at hk
  have := Option.some.inj hk
  rw [← this]
  rfl

/-- C2 witness: at the Standard Oven and price 15, the theorem applies;
its "greater than or equal" part instantiated at the labour-7 record. -/
theorem maxProfitData_correct_witness :
    (economicRecord standardOven 15 7).totalProfit ≤
      (maxProfitData standardOven 15).totalProfit := by
  obtain ⟨k, hk, hlab, hall, hfirst⟩ := maxProfitData_correct standardOven 15
  exact hall _ (by simp [economicData, MAX_LABOUR, List.range_succ])

/-- A capital configuration with an empty production table: every record
has zero production, hence no finite average total cost. Used to exercise
the no-valid-data fallback of `minAtcData`. -/
def brokenOven : Schedule :=
  { name := "Broken Oven", description := "Produces nothing.", fixedCost := 50
    icon := "B", production := [] }

/-- C8: `minAtcData` selects, among the records with `labour > 0` and a
finite average total cost, one whose average total cost is least; when no
such record exists it falls back to the first record of the sequence
(labour 0) instead of failing. -/
theorem minAtcData_correct (s : Schedule) (price : ℚ) :
    (∀ r, r ∈ validAtcData s price ↔
        r ∈ economicData s price ∧ 0 < r.labour ∧ r.averageTotalCost ≠ none)
  ∧ (validAtcData s price ≠ [] →
        minAtcData s price ∈ validAtcData s price
      ∧ ∀ r ∈ validAtcData s price, ∀ u q,
          r.averageTotalCost = some u →
          (minAtcData s price).averageTotalCost = some q → q ≤ u)
  ∧ (validAtcData s price = [] → minAtcData s price = economicRecord s price 0) := by
  refine ⟨?_, ?_, ?_⟩
  · intro r
    rw [validAtcData, List.mem_filter]
    simp only [Bool.and_eq_true, decide_eq_true_eq, Option.isSome_iff_ne_none]
    tauto
  · intro hne
    obtain ⟨v, vs, hv⟩ := List.exists_cons_of_ne_nil hne
    set pick : EconomicRecord → EconomicRecord → EconomicRecord :=
      fun mn current =>
        if optLt current.averageTotalCost mn.averageTotalCost then current else mn
      with hpick_def
    have hm : minAtcData s price = vs.foldl pick v := by
      unfold minAtcData
      rw [hv]
      show (v :: vs).foldl pick v = _
      rw [List.foldl_cons]
      have : pick v v = v := ite_self _
      rw [this]
    obtain ⟨k, hk, hall, hfirst⟩ :=
      foldl_pick_spec
        (fun a b => optLt b.averageTotalCost a.averageTotalCost) pick
        (by
          intro m c
          by_cases h : optLt c.averageTotalCost m.averageTotalCost
          · exact Or.inl ⟨h, if_pos h⟩
          · exact Or.inr ⟨h, if_neg h⟩)
        (by
          intro a b h
          exact optLt_asymm _ _ h)
        (by
          intro a b c h1 h2
          exact optLt_aux1 _ _ _ h1 h2)
        (by
          intro a b c h1 h2
          exact optLt_aux2 _ _ _ h1 h2)
        v vs
    rw [← hm] at hk hall hfirst
    rw [← hv] at hk hall
    constructor
    · exact List.get?_mem hk
    · intro r hr u q hru hq
      have hnot := hall r hr
      rw [hru, hq] at hnot
      simpa [optLt] using hnot
  · intro h
    unfold minAtcData
    rw [h]
    rfl

/-- C8 witness: at the Standard Oven and price 15 the valid data is
nonempty and the selected record is one of it with the least average total
cost (37/3, not more than the labour-1 record's 26); at the Broken Oven no
record has a finite average total cost and the fold falls back to the
labour-0 record. -/
theorem minAtcData_correct_witness :
    minAtcData standardOven 15 ∈ validAtcData standardOven 15
  ∧ (37 : ℚ) / 3 ≤ 26
  ∧ minAtcData brokenOven 9 = economicRecord brokenOven 9 0 := by
  have hmem1 : economicRecord standardOven 15 1 ∈ validAtcData standardOven 15 := by
    rw [validAtcData, List.mem_filter]
    constructor
    · simp [economicData, MAX_LABOUR, List.range_succ]
    · norm_num [economicRecord, prodAt, standardOven, variableCostAt, LABOR_COST_PER_HOUR]
  have hne : validAtcData standardOven 15 ≠ [] := by
    intro hemp
    rw [hemp] at hmem1
    exact (List.not_mem_nil _) hmem1
  refine ⟨((minAtcData_correct standardOven 15).2.1 hne).1, ?_, ?_⟩
  · refine ((minAtcData_correct standardOven 15).2.1 hne).2
      (economicRecord standardOven 15 1) hmem1 26 ((37 : ℚ) / 3) ?_ ?_
    · norm_num [economicRecord, prodAt, standardOven, variableCostAt, LABOR_COST_PER_HOUR]
    · norm_num [minAtcData, validAtcData, optLt, economicData, economicRecord, prodAt,
        marginalProductAt, standardOven, variableCostAt, LABOR_COST_PER_HOUR, MAX_LABOUR,
        List.range_succ, List.filter]
  · refine (minAtcData_correct brokenOven 9).2.2 ?_
    norm_num [validAtcData, economicData, economicRecord, prodAt,
      brokenOven, variableCostAt, LABOR_COST_PER_HOUR, MAX_LABOUR, List.range_succ,
      List.filter]

/-- When `1 ≤ i` and `i` is within the production table, the marginal
product is the difference of consecutive total productions. -/
theorem marginalProductAt_spec (s : Schedule) (i : ℕ) (h1 : 1 ≤ i)
    (h2 : i < s.production.length) :
    marginalProductAt s i = some (prodAt s i - prodAt s (i - 1)) := by
  have hi : i - 1 < s.production.length := by omega
  obtain ⟨a, ha⟩ : ∃ a, s.production.get? i = some a := ⟨_, List.get?_eq_get h2⟩
  obtain ⟨b, hb⟩ : ∃ b, s.production.get? (i - 1) = some b := ⟨_, List.get?_eq_get hi⟩
  unfold marginalProductAt
  rw [if_pos (show 0 < i by omega), ha, hb]
  simp only [prodAt, ha, hb, Option.getD_some]

/-- C1: for every catalog capital configuration, every price and every
labour level `i` in `[1, MAX_LABOUR]`, the derived record satisfies
`marginalProduct[i] = totalProduction[i] - totalProduction[i-1]`, and the
labour-0 record satisfies `marginalProduct[0] = totalProduction[0]`. -/
theorem economicData_marginal_product_invariant :
    ∀ s ∈ PRODUCTION_SCHEDULES, ∀ (price : ℚ) (i : ℕ), 1 ≤ i → i ≤ MAX_LABOUR →
      ((economicData s price).get? i = some (economicRecord s price i)
        ∧ (economicRecord s price i).marginalProduct =
            some ((economicRecord s price i).totalProduction -
              (economicRecord s price (i - 1)).totalProduction)
        ∧ (economicRecord s price 0).marginalProduct =
            some ((economicRecord s price 0).totalProduction)) := by
  intro s hs price i h1 h2
  have hlen : s.production.length = 11 := by
    fin_cases hs <;> rfl
  have h10 : MAX_LABOUR = 10 := rfl
  refine ⟨?_, ?_, ?_⟩
  · show ((List.range (MAX_LABOUR + 1)).map (economicRecord s price)).get? i = _
    rw [List.get?_map, List.get?_range (by omega : i < MAX_LABOUR + 1)]
    rfl
  · show marginalProductAt s i = some (prodAt s i - prodAt s (i - 1))
    exact marginalProductAt_spec s i h1 (by omega)
  · show marginalProductAt s 0 = some (prodAt s 0)
    obtain ⟨a, ha⟩ : ∃ a, s.production.get? 0 = some a :=
      ⟨_, List.get?_eq_get (by omega)⟩
    have h0 : marginalProductAt s 0 = s.production.get? 0 := by
      unfold marginalProductAt
      rw [if_neg (by omega)]
    rw [h0, ha]
    simp only [prodAt, ha, Option.getD_some]

/-- C1 witness: the Standard Oven at price 15, labour 3. -/
theorem economicData_marginal_product_invariant_witness :
    (economicRecord standardOven 15 3).marginalProduct = some 20 := by
  have h := (economicData_marginal_product_invariant standardOven
    (by simp [PRODUCTION_SCHEDULES]) 15 3 (by norm_num) (by norm_num [MAX_LABOUR])).2.1
  rw [h]
  norm_num [economicRecord, prodAt, standardOven]

/-- C3: `marginalCost` is the finite value
`(variableCost[i] - variableCost[i-1]) / marginalProduct` exactly when the
marginal product is a number greater than zero, and the `Infinity`
sentinel (`none`) otherwise — including the `NaN` marginal-product case;
`averageTotalCost` is `totalCost / totalProduction` exactly when
`totalProduction > 0` and the sentinel otherwise.  Both are returned as
values of the total function `economicRecord`, never raised. -/
theorem sentinel_cost_fields (s : Schedule) (price : ℚ) (i : ℕ) :
    (∀ m : ℚ, (economicRecord s price i).marginalProduct = some m → 0 < m →
        (economicRecord s price i).marginalCost =
          some ((variableCostAt i - variableCostAt ((i : ℤ) - 1)) / m))
  ∧ (∀ m : ℚ, (economicRecord s price i).marginalProduct = some m → ¬ 0 < m →
        (economicRecord s price i).marginalCost = none)
  ∧ ((economicRecord s price i).marginalProduct = none →
        (economicRecord s price i).marginalCost = none)
  ∧ (0 < (economicRecord s price i).totalProduction →
        (economicRecord s price i).averageTotalCost =
          some ((economicRecord s price i).totalCost /
            (economicRecord s price i).totalProduction))
  ∧ (¬ 0 < (economicRecord s price i).totalProduction →
        (economicRecord s price i).averageTotalCost = none) := by
  refine ⟨?_, ?_, ?_, ?_, ?_⟩
  · intro m hm hpos
    have hm' : marginalProductAt s i = some m := hm
    show (match marginalProductAt s i with
      | some m =>
          if 0 < m then some ((variableCostAt i - variableCostAt ((i : ℤ) - 1)) / m)
          else none
      | none => none) = _
    rw [hm']
    exact if_pos hpos
  · intro m hm hneg
    have hm' : marginalProductAt s i = some m := hm
    show (match marginalProductAt s i with
      | some m =>
          if 0 < m then some ((variableCostAt i - variableCostAt ((i : ℤ) - 1)) / m)
          else none
      | none => none) = none
    rw [hm']
    exact if_neg hneg
  · intro hm
    have hm' : marginalProductAt s i = none := hm
    show (match marginalProductAt s i with
      | some m =>
          if 0 < m then some ((variableCostAt i - variableCostAt ((i : ℤ) - 1)) / m)
          else none
      | none => none) = none
    rw [hm']
  · intro hp
    have hp' : 0 < prodAt s i := hp
    show (if 0 < prodAt s i then some ((s.fixedCost + variableCostAt i) / prodAt s i)
      else none) = _
    rw [if_pos hp']
    rfl
  · intro hp
    have hp' : ¬ 0 < prodAt s i := hp
    show (if 0 < prodAt s i then some ((s.fixedCost + variableCostAt i) / prodAt s i)
      else none) = none
    rw [if_neg hp']

/-- C3 witness: Standard Oven, price 15: at labour 3 the marginal product
is 20 > 0 and the marginal cost is the finite (480-320)/20 = 8 with the
average total cost 580/45; at labour 0 the marginal product is 0 and the
marginal cost is the sentinel. -/
theorem sentinel_cost_fields_witness :
    (economicRecord standardOven 15 3).marginalCost = some 8
  ∧ (economicRecord standardOven 15 3).averageTotalCost = some (580 / 45)
  ∧ (economicRecord standardOven 15 0).marginalCost = none := by
  refine ⟨?_, ?_, ?_⟩
  · have h := (sentinel_cost_fields standardOven 15 3).1 20
      (by norm_num [economicRecord, marginalProductAt, prodAt, standardOven]) (by norm_num)
    rw [h]
    norm_num [variableCostAt, LABOR_COST_PER_HOUR]
  · have h := (sentinel_cost_fields standardOven 15 3).2.2.2.1
      (by norm_num [economicRecord, prodAt, standardOven])
    rw [h]
    norm_num [economicRecord, prodAt, standardOven, variableCostAt, LABOR_COST_PER_HOUR]
  · exact (sentinel_cost_fields standardOven 15 0).2.1 0
      (by norm_num [economicRecord, marginalProductAt, prodAt, standardOven]) (by norm_num)

/-- C10: at labour level 0 the marginal-cost numerator evaluates to
`0 - (-160) = 160` (the code computes the variable cost of labour level
`-1`, which is `-160`), so the record's marginal cost is the finite
`160 / productionTable[0]` whenever `productionTable[0] > 0`, and the
sentinel exactly when it is not positive. -/
theorem labour_zero_marginal_cost (s : Schedule) (price : ℚ) :
    ((economicRecord s price 0).marginalCost =
        if 0 < prodAt s 0 then some (160 / prodAt s 0) else none)
  ∧ variableCostAt (-1) = -160 := by
  constructor
  · have h0 : marginalProductAt s 0 = s.production.get? 0 := by
      simp [marginalProductAt]
    show (match marginalProductAt s 0 with
      | some m =>
          if 0 < m then some ((variableCostAt 0 - variableCostAt ((0 : ℤ) - 1)) / m)
          else none
      | none => none) = _
    cases hg : s.production.get? 0 with
    | none =>
        rw [h0, hg]
        have hz : prodAt s 0 = 0 := by
          simp only [prodAt, hg]
          rfl
        rw [hz]
        norm_num
    | some a =>
        rw [h0, hg]
        have hpa : prodAt s 0 = a := by
          simp only [prodAt, hg, Option.getD_some]
        rw [hpa]
        show (if 0 < a then some ((variableCostAt 0 - variableCostAt ((0 : ℤ) - 1)) / a)
          else none) = if 0 < a then some (160 / a) else none
        by_cases hpos : 0 < a
        · rw [if_pos hpos, if_pos hpos]
          congr 1
          norm_num [variableCostAt, LABOR_COST_PER_HOUR]
        · rw [if_neg hpos, if_neg hpos]
  · norm_num [variableCostAt, LABOR_COST_PER_HOUR]

/-- C6: for every input value and target extent, a degenerate source
interval (`lo = hi`, including the all-zero series whose extended range is
`[0, 0]`) makes the scale return the midpoint of the target interval
instead of dividing by zero; in particular
`scaleValue 5 3 3 100 false = 50`. -/
theorem degenerate_scale_midpoint :
    (∀ (v lo extent : ℚ) (invert : Bool),
        scaleValue v lo lo extent invert = extent / 2)
  ∧ scaleValue 5 3 3 100 false = 50 := by
  constructor
  · intro v lo extent invert
    cases invert <;> simp [scaleValue, xScale, yScale]
  · show xScale 3 3 100 5 = 50
    rw [xScale, if_pos rfl]
    norm_num

/-- C7: every pointer hit region of the curve chart is a full-height
rectangle (from `y = 0` with the plot height) horizontally centred on its
column's scaled x position; its width is the full plot width when there is
exactly one distinct x-value, and otherwise equals the spacing between any
two adjacent scaled x-values whenever the distinct x-values are equally
spaced (as the chart's labour columns are). -/
theorem hover_region_geometry (u : List ℚ) (minX maxX width height x : ℚ) :
    ((hoverRect u minX maxX width height x).y = 0
      ∧ (hoverRect u minX maxX width height x).h = height)
  ∧ (hoverRect u minX maxX width height x).x +
      (hoverRect u minX maxX width height x).w / 2 = xScale minX maxX width x
  ∧ (u.length = 1 → (hoverRect u minX maxX width height x).w = width)
  ∧ ∀ d : ℚ, (∀ i : ℕ, i + 1 < u.length → u.getD (i + 1) 0 - u.getD i 0 = d) →
      ∀ i : ℕ, i + 1 < u.length →
        xScale minX maxX width (u.getD (i + 1) 0) - xScale minX maxX width (u.getD i 0) =
          (hoverRect u minX maxX width height x).w := by
  refine ⟨⟨rfl, rfl⟩, ?_, ?_, ?_⟩
  · show xScale minX maxX width x - columnWidth u minX maxX width / 2 +
      columnWidth u minX maxX width / 2 = xScale minX maxX width x
    ring
  · intro h1
    show columnWidth u minX maxX width = width
    rw [columnWidth, if_neg (by omega)]
  · intro d hd i hi
    have h1len : 1 < u.length := by omega
    have e1 := hd i hi
    have e0 := hd 0 (by omega)
    show _ = columnWidth u minX maxX width
    rw [columnWidth, if_pos h1len]
    by_cases hdeg : maxX = minX
    · simp [xScale, hdeg]
    · simp only [xScale, if_neg hdeg]
      rw [show u.getD (i + 1) 0 = u.getD i 0 + d by linarith,
        show u.getD (0 + 1) 0 = u.getD 0 0 + d by linarith]
      ring

/-- C7 witness: three equally spaced columns 0, 1, 2 on a 260-wide plot —
the region at column 1 has width equal to the scaled spacing of the
adjacent pair (1, 2); a single-column chart gets the full plot width. -/
theorem hover_region_geometry_witness :
    xScale 0 2 260 ([(0 : ℚ), 1, 2].getD 2 0) - xScale 0 2 260 ([(0 : ℚ), 1, 2].getD 1 0) =
      (hoverRect [(0 : ℚ), 1, 2] 0 2 260 150 1).w
  ∧ (hoverRect [(5 : ℚ)] 0 0 260 150 5).w = 260 := by
  constructor
  · exact (hover_region_geometry [(0 : ℚ), 1, 2] 0 2 260 150 1).2.2.2 1
      (by
        intro i hi
        simp only [List.length_cons, List.length_nil] at hi
        have hc : i = 0 ∨ i = 1 := by omega
        rcases hc with rfl | rfl <;> norm_num)
      1 (by norm_num)
  · exact (hover_region_geometry [(5 : ℚ)] 0 0 260 150 5).2.2.1 rfl

/-- One step of the crossing scan past a non-crossing pair. -/
theorem findCrossing_cons_of_neg (a b : Point) (t : List Point)
    (h : crossCondB a b = false) :
    findCrossing (a :: b :: t) = findCrossing (b :: t) := by
  simp only [findCrossing]
  rw [if_neg (by simp [h])]

/-- The crossing scan stops at a crossing pair. -/
theorem findCrossing_cons_of_pos (a b : Point) (t : List Point)
    (h : crossCondB a b = true) :
    findCrossing (a :: b :: t) = some (a, b) := by
  simp only [findCrossing]
  rw [if_pos h]

/-- `findCrossing` returns the first sign-changing consecutive pair: if no
pair inside `pre ++ [p1]` changes sign and `(p1, p2)` does, the scan stops
at `(p1, p2)`. -/
theorem findCrossing_append (pre : List Point) (p1 p2 : Point) (rest : List Point)
    (hchain : List.Chain' (fun a b => crossCondB a b = false) (pre ++ [p1]))
    (hcross : crossCondB p1 p2 = true) :
    findCrossing (pre ++ p1 :: p2 :: rest) = some (p1, p2) := by
  induction pre with
  | nil =>
      exact findCrossing_cons_of_pos p1 p2 rest hcross
  | cons a pre ih =>
      cases pre with
      | nil =>
          have ha : crossCondB a p1 = false := by
            simpa using List.chain'_pair.mp hchain
          show findCrossing (a :: p1 :: p2 :: rest) = some (p1, p2)
          rw [findCrossing_cons_of_neg a p1 _ ha]
          exact findCrossing_cons_of_pos p1 p2 rest hcross
      | cons b pre' =>
          have hab : crossCondB a b = false := (List.chain'_cons.mp hchain).1
          have htail : List.Chain' (fun a b => crossCondB a b = false)
              ((b :: pre') ++ [p1]) := (List.chain'_cons.mp hchain).2
          show findCrossing (a :: b :: (pre' ++ p1 :: p2 :: rest)) = some (p1, p2)
          rw [findCrossing_cons_of_neg a b _ hab]
          exact ih htail

/-- A sign-changing pair has distinct y-values, so the interpolation
guard of src/index.tsx line 295 always passes at a crossing. -/
theorem crossCondB_sub_ne (p1 p2 : Point) (h : crossCondB p1 p2 = true) :
    p2.y - p1.y ≠ 0 := by
  have h' : (0 ≤ p1.y ∧ p2.y < 0) ∨ (p1.y ≤ 0 ∧ 0 < p2.y) := by
    simpa [crossCondB] using h
  intro hEq
  have hyy : p2.y = p1.y := by linarith [sub_eq_zero.mp hEq]
  rcases h' with ⟨ha, hb⟩ | ⟨ha, hb⟩ <;> linarith

/-- The split when the scan found the crossing pair `(p1, p2)`. -/
theorem splitAtZeroCrossing_of_find (data : List Point) (p1 p2 : Point)
    (hfind : findCrossing data = some (p1, p2)) (hne : p2.y - p1.y ≠ 0) :
    splitAtZeroCrossing data =
      if 0 ≤ p1.y then
        ((data.filter fun d => decide (0 ≤ d.y)) ++ [crossingPoint p1 p2],
          crossingPoint p1 p2 :: (data.filter fun d => decide (d.y ≤ 0)))
      else
        (crossingPoint p1 p2 :: (data.filter fun d => decide (0 ≤ d.y)),
          (data.filter fun d => decide (d.y ≤ 0)) ++ [crossingPoint p1 p2]) := by
  simp only [splitAtZeroCrossing, hfind]
  rw [if_pos hne]

/-- C4: at the first consecutive sign-changing pair `(p1, p2)` of the
series, the split inserts the interpolated point
`(p1.x - p1.y * (p2.x - p1.x) / (p2.y - p1.y), 0)` in both output
sublists: appended to the non-negative sublist and prepended to the
negative one when the crossing leaves the non-negative side, and the other
way round otherwise; in particular for the points `(0,5), (1,-3)` the
crossing is `(0.625, 0)`, the non-negative sublist ends with it and the
negative sublist starts with it. -/
theorem zero_crossing_split_correct :
    (∀ (pre rest : List Point) (p1 p2 : Point),
      List.Chain' (fun a b => crossCondB a b = false) (pre ++ [p1]) →
      crossCondB p1 p2 = true →
      ((0 ≤ p1.y →
          splitAtZeroCrossing (pre ++ p1 :: p2 :: rest) =
            (((pre ++ p1 :: p2 :: rest).filter fun d => decide (0 ≤ d.y)) ++
                [crossingPoint p1 p2],
              crossingPoint p1 p2 ::
                ((pre ++ p1 :: p2 :: rest).filter fun d => decide (d.y ≤ 0))))
        ∧ (p1.y < 0 →
          splitAtZeroCrossing (pre ++ p1 :: p2 :: rest) =
            (crossingPoint p1 p2 ::
                ((pre ++ p1 :: p2 :: rest).filter fun d => decide (0 ≤ d.y)),
              ((pre ++ p1 :: p2 :: rest).filter fun d => decide (d.y ≤ 0)) ++
                [crossingPoint p1 p2]))))
  ∧ splitAtZeroCrossing [⟨0, 5⟩, ⟨1, -3⟩] =
      ([⟨0, 5⟩, ⟨5 / 8, 0⟩], [⟨5 / 8, 0⟩, ⟨1, -3⟩])
  ∧ Point.mk (5 / 8) 0 ∈ (splitAtZeroCrossing [⟨0, 5⟩, ⟨1, -3⟩]).1
  ∧ Point.mk (5 / 8) 0 ∈ (splitAtZeroCrossing [⟨0, 5⟩, ⟨1, -3⟩]).2
  ∧ (splitAtZeroCrossing [⟨0, 5⟩, ⟨1, -3⟩]).1.getLast? = some ⟨5 / 8, 0⟩
  ∧ (splitAtZeroCrossing [⟨0, 5⟩, ⟨1, -3⟩]).2.head? = some ⟨5 / 8, 0⟩ := by
  have hconc : splitAtZeroCrossing [⟨0, 5⟩, ⟨1, -3⟩] =
      ([⟨0, 5⟩, ⟨5 / 8, 0⟩], [⟨5 / 8, 0⟩, ⟨1, -3⟩]) := by
    norm_num [splitAtZeroCrossing, findCrossing, crossCondB, crossingPoint, List.filter]
  refine ⟨?_, hconc, ?_, ?_, ?_, ?_⟩
  · intro pre rest p1 p2 hchain hcross
    have hfind := findCrossing_append pre p1 p2 rest hchain hcross
    have hne := crossCondB_sub_ne p1 p2 hcross
    have hsplit := splitAtZeroCrossing_of_find _ p1 p2 hfind hne
    constructor
    · intro hpos
      rw [hsplit, if_pos hpos]
    · intro hneg
      rw [hsplit, if_neg (not_le.mpr hneg)]
  · rw [hconc]
    simp
  · rw [hconc]
    simp
  · rw [hconc]
    rfl
  · rw [hconc]
    rfl

/-- C4 witness: the theorem's general part applied to the concrete input
`(0,5), (1,-3)` (empty prefix, crossing pair on the non-negative side). -/
theorem zero_crossing_split_correct_witness :
    splitAtZeroCrossing [⟨0, 5⟩, ⟨1, -3⟩] =
      (([(⟨0, 5⟩ : Point), ⟨1, -3⟩].filter fun d => decide (0 ≤ d.y)) ++
          [crossingPoint ⟨0, 5⟩ ⟨1, -3⟩],
        crossingPoint ⟨0, 5⟩ ⟨1, -3⟩ ::
          ([(⟨0, 5⟩ : Point), ⟨1, -3⟩].filter fun d => decide (d.y ≤ 0))) := by
  have h := (zero_crossing_split_correct.1 [] [] ⟨0, 5⟩ ⟨1, -3⟩
    (by simp) (by norm_num [crossCondB])).1 (by norm_num)
  simpa using h

/-- The last command of the smoothing loop is the cubic ending at the last
scaled point. -/
theorem smoothSegments_last (sp : List Point) (h : 2 ≤ sp.length) :
    (smoothSegments sp).getLast?.map cmdEnd =
      some (sp.getD (sp.length - 1) default) := by
  unfold smoothSegments
  rw [show sp.length - 1 = (sp.length - 2) + 1 by omega, List.range_succ, List.map_append,
    List.map_singleton]
  rw [List.getLast?_concat]
  rfl

/-- The smoothing loop emits at least one command when there are at least
two scaled points. -/
theorem smoothSegments_ne_nil (sp : List Point) (h : 2 ≤ sp.length) :
    smoothSegments sp ≠ [] := by
  unfold smoothSegments
  intro hemp
  have := List.range_eq_nil.mp (List.map_eq_nil.mp hemp)
  omega

/-- C5: the path builder maps fewer than 2 points to the empty path,
exactly 2 points to a single straight segment between their scaled
positions, and 3 or more points to a path that starts at the scaled first
input point and ends at the scaled last input point. -/
theorem createSmoothPath_shape (xS yS : ℚ → ℚ) (points : List Point) :
    (points.length < 2 → createSmoothPath xS yS points = [])
  ∧ (∀ a b, points = [a, b] →
      createSmoothPath xS yS points =
        [PathCmd.M (xS a.x) (yS a.y), PathCmd.L (xS b.x) (yS b.y)])
  ∧ (3 ≤ points.length →
      pathStart (createSmoothPath xS yS points) =
        points.head?.map (scalePoint xS yS)
    ∧ pathEnd (createSmoothPath xS yS points) =
        points.getLast?.map (scalePoint xS yS)) := by
  refine ⟨?_, ?_, ?_⟩
  · intro h
    unfold createSmoothPath
    rw [if_pos h]
  · intro a b hab
    subst hab
    norm_num [createSmoothPath, scalePoint, List.getD_cons_zero, List.getD_cons_succ]
  · intro h3
    obtain ⟨a, t, rfl⟩ : ∃ a t, points = a :: t := by
      cases points with
      | nil => simp at h3
      | cons a t => exact ⟨a, t, rfl⟩
    simp only [List.length_cons] at h3
    have hlt : ¬ (a :: t).length < 2 := by
      simp only [List.length_cons]
      omega
    have hlenmap : ((a :: t).map (scalePoint xS yS)).length = t.length + 1 := by
      rw [List.length_map, List.length_cons]
    have hne2 : ¬ ((a :: t).map (scalePoint xS yS)).length = 2 := by
      rw [hlenmap]
      omega
    have hcsp : createSmoothPath xS yS (a :: t) =
        PathCmd.M (((a :: t).map (scalePoint xS yS)).getD 0 default).x
            (((a :: t).map (scalePoint xS yS)).getD 0 default).y ::
          smoothSegments ((a :: t).map (scalePoint xS yS)) := by
      unfold createSmoothPath
      rw [if_neg hlt, if_neg hne2]
    have h2 : 2 ≤ ((a :: t).map (scalePoint xS yS)).length := by
      rw [hlenmap]
      omega
    constructor
    · rw [hcsp]
      rfl
    · rw [hcsp]
      unfold pathEnd
      rw [← List.singleton_append,
        List.getLast?_append_of_ne_nil _ (smoothSegments_ne_nil _ h2),
        smoothSegments_last _ h2]
      rw [List.getLast?_eq_get? (a :: t)]
      rw [show (a :: t).length - 1 = t.length by rw [List.length_cons]; omega]
      rw [show ((a :: t).map (scalePoint xS yS)).length - 1 = t.length by rw [hlenmap]; omega]
      have hb : t.length < ((a :: t).map (scalePoint xS yS)).length := by
        rw [hlenmap]
        omega
      obtain ⟨v, hv⟩ : ∃ v, ((a :: t).map (scalePoint xS yS)).get? t.length = some v :=
        ⟨_, List.get?_eq_get hb⟩
      rw [← List.get?_map, hv]
      show some ((((a :: t).map (scalePoint xS yS)).get? t.length).getD default) = some v
      rw [hv]
      rfl

/-- C5 witness: the theorem applied at the identity scales to a 3-point
input, a 2-point input and a 1-point input. -/
theorem createSmoothPath_shape_witness :
    pathEnd (createSmoothPath id id [⟨0, 0⟩, ⟨1, 2⟩, ⟨2, 1⟩]) =
      some (scalePoint id id ⟨2, 1⟩)
  ∧ createSmoothPath id id [⟨0, 0⟩, ⟨2, 4⟩] =
      [PathCmd.M 0 0, PathCmd.L 2 4]
  ∧ createSmoothPath id id [⟨3, 3⟩] = [] := by
  refine ⟨?_, ?_, ?_⟩
  · have h := ((createSmoothPath_shape id id [⟨0, 0⟩, ⟨1, 2⟩, ⟨2, 1⟩]).2.2
      (by norm_num)).2
    simpa using h
  · have h := (createSmoothPath_shape id id [⟨0, 0⟩, ⟨2, 4⟩]).2.1 ⟨0, 0⟩ ⟨2, 4⟩ rfl
    simpa using h
  · exact (createSmoothPath_shape id id [⟨3, 3⟩]).1 (by norm_num)

/-- `findIndex` misses exactly when no element satisfies the predicate. -/
theorem findIndex_eq_none_iff {α : Type} (p : α → Bool) (l : List α) :
    findIndex p l = none ↔ ∀ x ∈ l, p x = false := by
  induction l with
  | nil => simp [findIndex]
  | cons a t ih =>
      by_cases h : p a
      · simp [findIndex, h]
      · simp only [findIndex, h, if_neg, Bool.false_eq_true, if_false,
          Option.map_eq_none', List.mem_cons]
        constructor
        · intro hn x hx
          rcases hx with rfl | hx'
          · simpa using h
          · exact (ih.mp hn) x hx'
        · intro hall
          exact ih.mpr fun x hx => hall x (Or.inr hx)

/-- `findIndex` finds a satisfying element. -/
theorem findIndex_eq_some {α : Type} (p : α → Bool) (l : List α) (i : ℕ)
    (h : findIndex p l = some i) :
    ∃ a, l.get? i = some a ∧ p a = true := by
  induction l generalizing i with
  | nil => simp [findIndex] at h
  | cons x t ih =>
      by_cases hx : p x
      · simp only [findIndex, hx, if_true, Option.some.injEq] at h
        subst h
        exact ⟨x, rfl, hx⟩
      · simp only [findIndex, hx, Bool.false_eq_true, if_false,
          Option.map_eq_some'] at h
        obtain ⟨j, hj, rfl⟩ := h
        obtain ⟨a, ha, hpa⟩ := ih j hj
        exact ⟨a, by simpa using ha, hpa⟩

/-- `findIndex` returns the first index whose element satisfies the
predicate. -/
theorem findIndex_first {α : Type} (p : α → Bool) (l : List α) (i : ℕ) (a : α)
    (ha : l.get? i = some a) (hpa : p a = true)
    (hmin : ∀ j b, j < i → l.get? j = some b → p b = false) :
    findIndex p l = some i := by
  induction l generalizing i with
  | nil => simp at ha
  | cons x t ih =>
      cases i with
      | zero =>
          simp only [List.get?_cons_zero, Option.some.injEq] at ha
          subst ha
          simp [findIndex, hpa]
      | succ j =>
          have hx : p x = false := hmin 0 x (Nat.succ_pos j) rfl
          have ht : findIndex p t = some j := by
            refine ih j (by simpa using ha) ?_
            intro j' b hj' hb
            exact hmin (j' + 1) b (by omega) (by simpa using hb)
          simp [findIndex, hx, ht]

/-- Setting an index to the value it already holds leaves a list
unchanged. -/
theorem set_get?_eq {α : Type} (l : List α) (i : ℕ) (a : α)
    (h : l.get? i = some a) : l.set i a = l := by
  induction l generalizing i with
  | nil => simp at h
  | cons x t ih =>
      cases i with
      | zero =>
          simp only [List.get?_cons_zero, Option.some.injEq] at h
          subst h
          rfl
      | succ j =>
          simp only [List.get?_cons_succ] at h
          simp [List.set_cons_succ, ih j h]

/-- Saving preserves distinctness of the stored capital names. -/
theorem handleSaveScenario_nodup (prev : List Scenario) (n : Scenario)
    (h : (prev.map Scenario.name).Nodup) :
    ((handleSaveScenario prev n).map Scenario.name).Nodup := by
  unfold handleSaveScenario
  cases hf : findIndex (fun sc => sc.name == n.name) prev with
  | none =>
      have hnm : ∀ x ∈ prev, x.name ≠ n.name := by
        intro x hx
        have := (findIndex_eq_none_iff _ _).mp hf x hx
        simpa using this
      rw [List.map_append]
      rw [List.nodup_append]
      refine ⟨h, List.nodup_singleton _, ?_⟩
      intro y hy
      simp only [List.map_singleton, List.mem_singleton]
      obtain ⟨x, hx, rfl⟩ := List.mem_map.mp hy
      exact fun hEq => hnm x hx hEq
  | some idx =>
      obtain ⟨a, ha, hpa⟩ := findIndex_eq_some _ _ _ hf
      have hname : a.name = n.name := by simpa using hpa
      have hmap : (prev.set idx n).map Scenario.name =
          (prev.map Scenario.name).set idx n.name := List.map_set
      have hget : (prev.map Scenario.name).get? idx = some n.name := by
        rw [List.get?_map, ha, Option.map_some', hname]
      rw [hmap, set_get?_eq _ _ _ hget]
      exact h

/-- C9: starting from the empty store, any sequence of saves leaves at
most one entry per capital name; a save whose name misses every stored
entry appends; a save whose name matches the entry at the first matching
position replaces exactly that entry in place; `handleClearScenarios`
empties the list. -/
theorem scenario_store_upsert :
    (∀ saves : List Scenario,
        ((saves.foldl handleSaveScenario []).map Scenario.name).Nodup)
  ∧ (∀ (prev : List Scenario) (n : Scenario),
        (∀ s ∈ prev, s.name ≠ n.name) → handleSaveScenario prev n = prev ++ [n])
  ∧ (∀ (prev : List Scenario) (n oldEntry : Scenario) (i : ℕ),
        prev.get? i = some oldEntry → oldEntry.name = n.name →
        (∀ j b, j < i → prev.get? j = some b → b.name ≠ n.name) →
        handleSaveScenario prev n = prev.set i n)
  ∧ handleClearScenarios = [] := by
  refine ⟨?_, ?_, ?_, rfl⟩
  · intro saves
    suffices hgen : ∀ (ss : List Scenario) (prev : List Scenario),
        (prev.map Scenario.name).Nodup →
        ((ss.foldl handleSaveScenario prev).map Scenario.name).Nodup by
      exact hgen saves [] (by simp)
    intro ss
    induction ss with
    | nil => intro prev h; simpa using h
    | cons c cs ih =>
        intro prev h
        rw [List.foldl_cons]
        exact ih _ (handleSaveScenario_nodup prev c h)
  · intro prev n h
    unfold handleSaveScenario
    rw [(findIndex_eq_none_iff _ _).mpr ?_]
    intro x hx
    simpa using h x hx
  · intro prev n oldEntry i hget hname hmin
    unfold handleSaveScenario
    rw [findIndex_first (fun sc => sc.name == n.name) prev i oldEntry hget
      (by simpa using hname) ?_]
    intro j b hj hb
    simpa using hmin j b hj hb

/-- Concrete scenarios used by the store witness. -/
def scenarioA1 : Scenario :=
  ⟨"Standard Oven", "F", 10, 4, 15, none, none⟩

/-- A later save for the same capital name, with different values. -/
def scenarioA2 : Scenario :=
  ⟨"Standard Oven", "F", 160, 4, 15, some 8, some 12⟩

/-- A save for a different capital name. -/
def scenarioB : Scenario :=
  ⟨"Conveyor Belt Oven", "C", 20, 5, 15, none, none⟩

/-- C9 witness: appending a new name and replacing an existing one in
place, at concrete stores. -/
theorem scenario_store_upsert_witness :
    handleSaveScenario [scenarioA1] scenarioB = [scenarioA1, scenarioB]
  ∧ handleSaveScenario [scenarioA1, scenarioB] scenarioA2 = [scenarioA2, scenarioB] := by
  constructor
  · have h := scenario_store_upsert.2.1 [scenarioA1] scenarioB ?_
    · simpa using h
    · intro s hs
      rcases List.mem_singleton.mp hs with rfl
      decide
  · have h := scenario_store_upsert.2.2.1 [scenarioA1, scenarioB] scenarioA2 scenarioA1 0
      rfl (by decide) ?_
    · simpa using h
    · intro j b hj hb
      exact absurd hj (Nat.not_lt_zero j)
